import Mathlib

/-!
Verification development for the RedTeamAgent repository.

Shallow embedding of the agent execution engine and task-orchestration layer:
  - src/agents/task_orchestrator.py : Direction, TaskRelationManager
    (the task graph with automatic reverse links)
  - src/agents.py, src/agents/task_agents.py : the agent status machine
    (execute / cancel / stop_all_agents as atomic events on agent state)
  - src/agents.py : EnhancedAgentOrchestrator (admission control, cleanup)
  - src/agents.py : StreamingGenericAgent conversation loop
    (_run_streaming_conversation_loop, _process_tool_usage_with_streaming,
     _check_task_completion, _handle_rate_limiting)

Python dicts are modelled as association lists in insertion order; machine
integers are Nat; fallible calls return Except; the while loop is modelled
by fuel equal to its iteration budget (each pass of the python loop
increments the iteration counter by exactly one, so the fuel model is exact).
-/

namespace RedTeamAgent

/-! ## Task graph (src/agents/task_orchestrator.py) -/

/-- Directions for task relationships (class Direction). -/
inductive Direction where
  | up
  | down
  | left
  | right
deriving DecidableEq, Repr

/-- get_reverse_direction: Up and Down swap, Left and Right swap.  The python
function returns None on an impossible input; the match below is total. -/
def get_reverse_direction : Direction → Direction
  | .up => .down
  | .down => .up
  | .left => .right
  | .right => .left

/-- One entry of TaskRelationManager.relationships: the four direction slots,
each holding either nothing or a neighbor task id. -/
structure RelEntry where
  up : Option Nat
  down : Option Nat
  left : Option Nat
  right : Option Nat
deriving DecidableEq, Repr

def RelEntry.emptyEntry : RelEntry := ⟨none, none, none, none⟩

def RelEntry.slot (e : RelEntry) : Direction → Option Nat
  | .up => e.up
  | .down => e.down
  | .left => e.left
  | .right => e.right

def RelEntry.setDir (e : RelEntry) : Direction → Option Nat → RelEntry
  | .up, v => { e with up := v }
  | .down, v => { e with down := v }
  | .left, v => { e with left := v }
  | .right, v => { e with right := v }

/-- The relationships dict of TaskRelationManager, as an association list in
insertion order (python dicts preserve insertion order). -/
abbrev TRM := List (Nat × RelEntry)

/-- Dict lookup (first entry with the given key). -/
def lookupE : TRM → Nat → Option RelEntry
  | [], _ => none
  | p :: m, k => if p.1 = k then some p.2 else lookupE m k

/-- self.relationships.get(task_id, \x7b\x7d).get(direction): the neighbor of a
task in one direction, None when the task is unregistered. -/
def getDir (m : TRM) (k : Nat) (d : Direction) : Option Nat :=
  (lookupE m k).bind (fun e => e.slot d)

/-- In-place slot assignment self.relationships[k][d] = v.  A dict assignment
to an existing key keeps its position; an absent key is never assigned by the
python code, so the map form (update every entry whose key matches) is exact. -/
def setSlot (m : TRM) (k : Nat) (d : Direction) (v : Option Nat) : TRM :=
  m.map (fun p => if p.1 = k then (p.1, p.2.setDir d v) else p)

/-- add_task: register the id with four empty slots if not yet present. -/
def addTask (m : TRM) (k : Nat) : TRM :=
  if (lookupE m k).isSome then m else m ++ [(k, RelEntry.emptyEntry)]

/-- del self.relationships[k]. -/
def eraseKey (m : TRM) (k : Nat) : TRM :=
  m.filter (fun p => p.1 ≠ k)

/-- set_relationship(from, direction, to): ensure both endpoints are
registered, set the forward slot, and when a target is given set the reverse
slot of the target back to the source. -/
def set_relationship (m : TRM) (fromId : Nat) (d : Direction) (toId : Option Nat) : TRM :=
  let m1 := addTask m fromId
  let m2 := match toId with
    | some t => addTask m1 t
    | none => m1
  let m3 := setSlot m2 fromId d toId
  match toId with
  | some t => setSlot m3 t (get_reverse_direction d) (some fromId)
  | none => m3

/-- One pass of the clearing loop inside remove_node: read the current
neighbor of taskId in direction d and clear that neighbor's reverse slot
(the python check `if neighbor_id in self.relationships` corresponds to
setSlot being a no-op on an absent key). -/
def clearStep (m : TRM) (taskId : Nat) (d : Direction) : TRM :=
  match getDir m taskId d with
  | some n => setSlot m n (get_reverse_direction d) none
  | none => m

/-- Dict iteration order of the four direction slots. -/
def allDirections : List Direction := [.up, .down, .left, .right]

/-- remove_node: if registered, clear the reverse slot of every current
neighbor, then delete the entry. -/
def remove_node (m : TRM) (taskId : Nat) : TRM :=
  if (lookupE m taskId).isSome then
    eraseKey (allDirections.foldl (fun acc d => clearStep acc taskId d) m) taskId
  else m

/-- Python truthiness of an optional task id (`while current_id`, `if not
self.get_direction_neighbors(...)`): None and 0 are falsy. -/
def isFalsy : Option Nat → Bool
  | none => true
  | some 0 => true
  | some (_ + 1) => false

/-- get_task_chain: follow one direction collecting ids while truthy.  The
python while loop has no bound, so the embedding carries explicit fuel; the
loop terminates with a given result exactly when every sufficient fuel value
returns that result. -/
def getChainAux (m : TRM) (d : Direction) : Nat → Option Nat → List Nat
  | 0, _ => []
  | fuel + 1, cur =>
    match cur with
    | none => []
    | some 0 => []
    | some (c + 1) => (c + 1) :: getChainAux m d fuel (getDir m (c + 1) d)

/-- The direction scan at the top of add_sub_tasks: the first of
[DOWN, RIGHT] whose current neighbor is falsy. -/
def firstAvailableDirection (m : TRM) (taskId : Nat) : Option Direction :=
  if isFalsy (getDir m taskId .down) then some .down
  else if isFalsy (getDir m taskId .right) then some .right
  else none

/-- The linking loop of add_sub_tasks: the first child links to the parent,
each later child links to the previous child, all along the same direction. -/
def linkChain (d : Direction) : TRM → Nat → List Nat → TRM
  | m, _, [] => m
  | m, prev, c :: cs => linkChain d (set_relationship m prev d (some c)) c cs

/-- add_sub_tasks(current_task, sub_tasks). -/
def add_sub_tasks (m : TRM) (parentId : Nat) (children : List Nat) : TRM :=
  match children with
  | [] => m
  | _ :: _ =>
    match firstAvailableDirection m parentId with
    | some d => linkChain d m parentId children
    | none => m

/-- The reverse-link invariant of the spec: every directed slot is mirrored
by the reverse slot of its target (no dangling one-directional edge). -/
def NoDangling (m : TRM) : Prop :=
  ∀ j d n, getDir m j d = some n → getDir m n (get_reverse_direction d) = some j

/-- A mutating operation on the task graph, as exposed by the spec. -/
inductive GraphOp where
  | setRel (a : Nat) (d : Direction) (b : Option Nat)
  | remove (a : Nat)
deriving DecidableEq, Repr

def applyOp (m : TRM) : GraphOp → TRM
  | .setRel a d b => set_relationship m a d b
  | .remove a => remove_node m a

def applyOps (m : TRM) (ops : List GraphOp) : TRM :=
  ops.foldl applyOp m

/-- A SetRelation call is non-overwriting when the forward slot of the source
and the reverse slot of the target are both currently empty. -/
def goodOp (m : TRM) : GraphOp → Bool
  | .setRel a d b =>
      decide (getDir m a d = none) &&
      (match b with
       | some t => decide (getDir m t (get_reverse_direction d) = none)
       | none => true)
  | .remove _ => true

def goodOps : TRM → List GraphOp → Bool
  | _, [] => true
  | m, op :: ops => goodOp m op && goodOps (applyOp m op) ops

/-! ## Agent status machine
(BaseAgent in src/agents/task_agents.py and src/agents.py; stop_all_agents in
src/agents.py.  PENDING/WORKING(RUNNING)/SUCCESS(COMPLETED)/FAILED/CANCELLED
are unified as in the spec.) -/

inductive AgentStatus where
  | pending
  | working
  | success
  | failed
  | cancelled
deriving DecidableEq, Repr

/-- Whether the execute() worker of this agent has not started, is in
flight, or has finished.  One execute() call per agent is modelled. -/
inductive ExecPhase where
  | notStarted
  | started
  | finished
deriving DecidableEq, Repr

/-- The observable agent fields the claims are about. -/
structure AgentState where
  status : AgentStatus
  result : Option String
  error : Option String
  phase : ExecPhase
deriving DecidableEq, Repr

def initialAgentState : AgentState :=
  { status := .pending, result := none, error := none, phase := .notStarted }

/-- Atomic events interleaved on one agent: the worker thread starting
(set_status(WORKING) at the top of _execute), the worker finishing its task
normally (result assignment followed by set_status(SUCCESS)), the worker
catching an exception (error assignment followed by set_status(FAILED)),
cancel(), and the per-agent effect of stop_all_agents(). -/
inductive AgentEvent where
  | execStart
  | execFinishOk (v : String)
  | execFinishErr (msg : String)
  | cancel
  | stopAll
deriving DecidableEq, Repr

/-- One event applied to the agent state, translated from the source:
execute() sets WORKING then unconditionally sets SUCCESS or FAILED when the
task returns or raises; cancel() acts only on a WORKING agent; the
stop_all_agents() loop forces a WORKING (RUNNING) agent to FAILED with the
fixed error text. -/
def agentStep (s : AgentState) : AgentEvent → AgentState
  | .execStart =>
      if s.phase = .notStarted then { s with status := .working, phase := .started } else s
  | .execFinishOk v =>
      if s.phase = .started then
        { s with result := some v, status := .success, phase := .finished }
      else s
  | .execFinishErr m =>
      if s.phase = .started then
        { s with error := some m, status := .failed, phase := .finished }
      else s
  | .cancel =>
      if s.status = .working then { s with status := .cancelled } else s
  | .stopAll =>
      if s.status = .working then
        { s with status := .failed, error := some "Stopped by orchestrator" }
      else s

def runAgent (es : List AgentEvent) : AgentState :=
  es.foldl agentStep initialAgentState

/-- The sequence of status values observed along an event interleaving. -/
def statusTraceFrom (s : AgentState) : List AgentEvent → List AgentStatus
  | [] => [s.status]
  | e :: es => s.status :: statusTraceFrom (agentStep s e) es

def statusTrace (es : List AgentEvent) : List AgentStatus :=
  statusTraceFrom initialAgentState es

/-- The transitions the spec allows: Pending to Working, Working to a
terminal state. -/
def specAllowedB : AgentStatus → AgentStatus → Bool
  | .pending, .working => true
  | .working, .success => true
  | .working, .failed => true
  | .working, .cancelled => true
  | _, _ => false

/-- The transitions the code actually exhibits: additionally, an in-flight
execution finishing after cancel() or stop_all_agents() overwrites the
terminal state. -/
def codeAllowedB : AgentStatus → AgentStatus → Bool
  | .pending, .working => true
  | .working, .success => true
  | .working, .failed => true
  | .working, .cancelled => true
  | .cancelled, .success => true
  | .cancelled, .failed => true
  | .failed, .success => true
  | _, _ => false

/-- Every consecutive change of status in a trace lies in the given
transition relation. -/
def okTraceB (allowed : AgentStatus → AgentStatus → Bool) : List AgentStatus → Bool
  | [] => true
  | [_] => true
  | a :: b :: r => (a = b || allowed a b) && okTraceB allowed (b :: r)

/-! ## Orchestrator registry
(EnhancedAgentOrchestrator in src/agents.py: create_agent admission control,
get_running_agents, cleanup_old_agents.) -/

/-- A registered agent as the orchestrator sees it. -/
structure OAgent where
  id : Nat
  status : AgentStatus
deriving DecidableEq, Repr

/-- self.agents, a dict from id to agent in insertion (creation) order. -/
abbrev Registry := List OAgent

def maxConcurrentAgents : Nat := 3

def agentCleanupThreshold : Nat := 20

/-- get_running_agents: all agents whose status is RUNNING (Working). -/
def get_running_agents (o : Registry) : Registry :=
  o.filter (fun a => a.status = .working)

/-- Sort key of cleanup_old_agents: ids descending (python
sorted(..., key=lambda x: x[1].id, reverse=True)). -/
def idDesc (a b : OAgent) : Prop := b.id ≤ a.id

instance : DecidableRel idDesc := fun a b => Nat.decLe b.id a.id

instance : IsTotal OAgent idDesc := ⟨fun a b => Nat.le_total b.id a.id⟩

instance : IsTrans OAgent idDesc := ⟨fun _ _ _ hab hbc => Nat.le_trans hbc hab⟩

/-- cleanup_old_agents(keep_count): when more agents are registered than
keep_count, keep the keep_count agents with the largest ids and drop all
others (the registry is rebuilt in descending id order). -/
def cleanup_old_agents (o : Registry) (keepCount : Nat) : Registry :=
  if keepCount < o.length then (List.insertionSort idDesc o).take keepCount else o

/-- self.agents[agent.id] = agent on a dict: replace in place when the key
exists, append otherwise. -/
def registerAgent (o : Registry) (a : OAgent) : Registry :=
  if o.any (fun b => b.id = a.id) then o.map (fun b => if b.id = a.id then a else b)
  else o ++ [a]

def admissionErrorText : String :=
  "Maximum concurrent agents (3) reached. Please wait for completion."

/-- create_agent: reject when the count of RUNNING agents is at or above the
ceiling; otherwise clean up when the registry exceeds the threshold, then
register a new PENDING agent. -/
def create_agent (o : Registry) (newId : Nat) : Except String Registry :=
  if maxConcurrentAgents ≤ (get_running_agents o).length then
    .error admissionErrorText
  else
    let o1 := if agentCleanupThreshold < o.length then
        cleanup_old_agents o (agentCleanupThreshold / 2)
      else o
    .ok (registerAgent o1 { id := newId, status := .pending })

/-- Update the status of the agent with the given id (an agent leaving the
Working state). -/
def setAgentStatus (o : Registry) (aid : Nat) (st : AgentStatus) : Registry :=
  o.map (fun b => if b.id = aid then { b with status := st } else b)

deriving instance DecidableEq for Except

/-- A registry of 21 agents: the oldest (first created, id 1) is still
Working, the 20 later ones finished. -/
def c8CexRegistry : Registry :=
  ⟨1, .working⟩ :: (List.range 20).map (fun i => ⟨i + 2, .success⟩)

/-! ## String helpers
(python substring membership, lower-casing, strip, used by the loop). -/

/-- Whether the first list is a leading segment of the second. -/
def listStartsWith : List Char → List Char → Bool
  | [], _ => true
  | _ :: _, [] => false
  | c :: cs, d :: ds => (c = d) && listStartsWith cs ds

def strContainsAux (pat : List Char) : List Char → Bool
  | [] => pat.isEmpty
  | c :: rest => listStartsWith pat (c :: rest) || strContainsAux pat rest

/-- python `pat in s` (substring membership). -/
def pyIn (pat s : String) : Bool := strContainsAux pat.data s.data

/-- python s.lower() on the ASCII range used by the indicator phrases. -/
def pyLower (s : String) : String := String.mk (s.data.map Char.toLower)

def isSpaceChar (c : Char) : Bool :=
  c = ' ' || c = '\t' || c = '\n' || c = '\r'

/-- len(response.strip()): length after removing leading and trailing
whitespace. -/
def strTrimLength (s : String) : Nat :=
  ((s.data.dropWhile isSpaceChar).reverse.dropWhile isSpaceChar).length

/-! ## Streaming conversation loop (StreamingGenericAgent in src/agents.py) -/

/-- A message of the conversation history. -/
structure ChatMsg where
  role : String
  content : String
deriving DecidableEq, Repr

/-- A tool handle as the loop uses it: the enabled flag, the display name
(friendly_name), detect_request on the assistant reply (None meaning no
command found), and execute returning output text or raising an error. -/
structure MTool where
  enabled : Bool
  friendly : String
  detect : String → Option String
  run : String → Except String String

def max_iterations : Nat := 25

def maxBackoff : Nat := 300

/-- _handle_rate_limiting: the stored backoff doubles, capped at 300s
(the sleep itself is not modelled). -/
def handle_rate_limiting (b : Nat) : Nat := min (b * 2) maxBackoff

/-- The stored backoff after k consecutive rate-limit events starting from
the initial value 5. -/
def backoffAfterEvents : Nat → Nat
  | 0 => 5
  | k + 1 => handle_rate_limiting (backoffAfterEvents k)

/-- The strong completion phrases of _check_task_completion. -/
def strongIndicators : List String :=
  ["task completed", "analysis complete", "report complete",
   "reconnaissance complete", "findings summary", "final report",
   "comprehensive analysis complete", "investigation complete"]

/-- The weak completion phrases of _check_task_completion. -/
def weakIndicators : List String :=
  ["conclusion", "summary", "final results", "completed successfully",
   "no further action needed", "task finished"]

/-- _check_task_completion(response, iteration, tool_used). -/
def check_task_completion (response : String) (iteration : Nat) (toolUsed : Bool) : Bool :=
  let rl := pyLower response
  if strongIndicators.any (fun p => pyIn p rl) then true
  else if 2 ≤ weakIndicators.countP (fun p => pyIn p rl) then true
  else if 15 ≤ iteration && !toolUsed then true
  else if 20 ≤ iteration then true
  else if strTrimLength response < 100 && 5 < iteration then true
  else false

/-- A single quote character, used by the tool message formats. -/
def sq : String := String.mk [Char.ofNat 39]

/-- The User message appended after a successful tool execution. -/
def toolSuccessMsg (friendly result : String) : String :=
  "Tool " ++ sq ++ friendly ++ sq ++ " executed successfully.\n\nResults:\n" ++ result

/-- The User message appended by _handle_tool_error; the error text carries
the wrapper added by _execute_tool_safely. -/
def toolErrorMsg (friendly err : String) : String :=
  "Tool " ++ sq ++ friendly ++ sq ++ " encountered an error: Tool execution failed: "
    ++ err ++ "\n\nPlease continue with alternative approaches or available information."

/-- The User message appended on a non-rate-limit loop exception. -/
def errorContextMsg (iteration : Nat) (msg : String) : String :=
  "Error occurred: Error in iteration " ++ toString iteration ++ ": " ++ msg
    ++ ". Please continue with available information or adjust your approach."

/-- The loop state threaded through _run_streaming_conversation_loop. -/
structure LoopState where
  iteration : Nat
  consecutiveErrors : Nat
  backoff : Nat
  history : List ChatMsg
  lastResponse : String
  toolsUsed : List (String × String)
  toolResults : List (String × String)
deriving Repr

def initLoopState (history0 : List ChatMsg) : LoopState :=
  { iteration := 0, consecutiveErrors := 0, backoff := 5, history := history0,
    lastResponse := "", toolsUsed := [], toolResults := [] }

/-- The body run for the one detected tool: on success, record the tool
usage and result and append the success User message; on a raised tool
error, append the formatted error User message (tools_used and
tool_results are not extended on the error path). -/
def runDetectedTool (st : LoopState) (name : String) (t : MTool) (cmd : String) : LoopState :=
  match t.run cmd with
  | .ok res =>
      { st with
          toolsUsed := st.toolsUsed ++ [(name, cmd)],
          toolResults := st.toolResults ++ [(name, res)],
          history := st.history ++ [⟨"user", toolSuccessMsg t.friendly res⟩] }
  | .error e =>
      { st with history := st.history ++ [⟨"user", toolErrorMsg t.friendly e⟩] }

/-- _process_tool_usage_with_streaming: walk the tool set in its stable
(insertion) order, skip disabled tools, run the first tool whose
detect_request finds a command, append its output or formatted error as a
User message, and stop after that one tool. -/
def processToolsAux (response : String) (st : LoopState) :
    List (String × MTool) → LoopState × Bool
  | [] => (st, false)
  | (name, t) :: rest =>
    if !t.enabled then processToolsAux response st rest
    else
      match t.detect response with
      | none => processToolsAux response st rest
      | some cmd => (runDetectedTool st name t cmd, true)

/-- What one backend call produces: a reply string (the empty string playing
the falsy None/empty reply), or a raised exception with a message. -/
inductive BackendOutcome where
  | ok (content : String)
  | exn (msg : String)

/-- The rate-limit detection in the except branch of the loop. -/
def isRateLimitError (msg : String) : Bool :=
  pyIn "rate limit" (pyLower msg) || pyIn "429" msg

/-- After one pass of the while body the loop either breaks or continues. -/
inductive StepResult where
  | halt (st : LoopState)
  | next (st : LoopState)

def StepResult.state : StepResult → LoopState
  | .halt st => st
  | .next st => st

/-- One pass of the while body of _run_streaming_conversation_loop, with the
backend call of iteration i given by backend i.  Branches in source order:
a falsy reply counts an error and breaks at three consecutive errors; a
reply resets the error count and the backoff, is appended as the Assistant
message, feeds the tool pass, and the completion check decides break or
continue; a rate-limit exception backs off and continues before the
three-error check is reached; any other exception breaks at three
consecutive errors and otherwise appends a diagnostic User message. -/
def loopStep (backend : Nat → BackendOutcome) (tools : List (String × MTool))
    (st : LoopState) : StepResult :=
  let it := st.iteration + 1
  match backend it with
  | .ok content =>
      if content = "" then
        let ce := st.consecutiveErrors + 1
        if 3 ≤ ce then .halt { st with iteration := it, consecutiveErrors := ce }
        else .next { st with iteration := it, consecutiveErrors := ce }
      else
        let st1 := { st with iteration := it, consecutiveErrors := 0, backoff := 5,
                             history := st.history ++ [⟨"assistant", content⟩],
                             lastResponse := content }
        let pr := processToolsAux content st1 tools
        if check_task_completion content it pr.2 then .halt pr.1
        else .next pr.1
  | .exn msg =>
      let ce := st.consecutiveErrors + 1
      if isRateLimitError msg then
        .next { st with iteration := it, consecutiveErrors := ce,
                        backoff := handle_rate_limiting st.backoff }
      else if 3 ≤ ce then
        .halt { st with iteration := it, consecutiveErrors := ce }
      else
        .next { st with iteration := it, consecutiveErrors := ce,
                        history := st.history ++ [⟨"user", errorContextMsg it msg⟩] }

/-- The while loop: fuel counts the remaining iteration budget
(max_iterations minus the iterations already executed); every pass
increments the iteration counter by exactly one, so this is exactly the
guard `iteration < max_iterations`. -/
def runLoopAux (backend : Nat → BackendOutcome) (tools : List (String × MTool)) :
    Nat → LoopState → LoopState
  | 0, st => st
  | fuel + 1, st =>
      match loopStep backend tools st with
      | .halt st2 => st2
      | .next st2 => runLoopAux backend tools fuel st2

/-- _run_streaming_conversation_loop over a given backend and tool set. -/
def run_streaming_conversation_loop (backend : Nat → BackendOutcome)
    (tools : List (String × MTool)) (history0 : List ChatMsg) : LoopState :=
  runLoopAux backend tools max_iterations (initLoopState history0)

/-- A stub tool that fires on replies containing a command marker. -/
def c5Tool : MTool :=
  { enabled := true, friendly := "Test Tool",
    detect := fun s => if pyIn "<cmd>" s then some "go" else none,
    run := fun _ => .ok "output" }

def c5CexTools : List (String × MTool) := [("testtool", c5Tool)]

/-- A backend stub whose reply contains both a tool command and a strong
completion phrase. -/
def c5CexBackend : Nat → BackendOutcome :=
  fun _ => .ok "Run <cmd> now. task completed"

/-- A reply of more than 100 characters containing no completion phrase
(and no tool block for an empty tool set). -/
def c7WitnessReply : String :=
  "The investigation of the target host is still in progress and further enumeration of the exposed services will follow in the next step."

/-! ## Invariant used for the agent status machine proofs -/

/-- The phases constrain the possible status values. -/
def statusInv (s : AgentState) : Prop :=
  (s.phase = .notStarted → s.status = .pending)
  ∧ (s.phase = .started →
      s.status = .working ∨ s.status = .cancelled ∨ s.status = .failed)
  ∧ (s.phase = .finished → s.status = .success ∨ s.status = .failed)

/-- Full invariant of reachable agent states along a processed event list:
relates phase, status, result and error, and records where a populated error
can come from. -/
def agentInv (es : List AgentEvent) (s : AgentState) : Prop :=
  (s.phase = .notStarted → s.status = .pending ∧ s.result = none ∧ s.error = none)
  ∧ (s.phase = .started → s.result = none ∧
      (s.status = .working ∨ s.status = .cancelled ∨ s.status = .failed) ∧
      (s.status = .failed →
        s.error = some "Stopped by orchestrator" ∧ AgentEvent.stopAll ∈ es) ∧
      (s.status = .working ∨ s.status = .cancelled → s.error = none))
  ∧ (s.phase = .finished →
      (s.status = .success ∧ s.result ≠ none ∧
        (s.error = none ∨
          (s.error = some "Stopped by orchestrator" ∧ AgentEvent.stopAll ∈ es)))
      ∨ (s.status = .failed ∧ s.result = none ∧
          ∃ msg, s.error = some msg ∧
            (msg = "Stopped by orchestrator" ∨ AgentEvent.execFinishErr msg ∈ es)))

/-! # Lemmas and theorems -/

/-! ## Basic direction and entry lemmas -/

theorem reverse_reverse (d : Direction) :
    get_reverse_direction (get_reverse_direction d) = d := by
  cases d <;> rfl

theorem reverse_ne (d : Direction) : get_reverse_direction d ≠ d := by
  cases d <;> decide

theorem reverse_inj {d d' : Direction}
    (h : get_reverse_direction d = get_reverse_direction d') : d = d' := by
  have := congrArg get_reverse_direction h
  rwa [reverse_reverse, reverse_reverse] at this

theorem slot_setDir (e : RelEntry) (d : Direction) (v : Option Nat) (d' : Direction) :
    (e.setDir d v).slot d' = if d' = d then v else e.slot d' := by
  cases d <;> cases d' <;> simp [RelEntry.setDir, RelEntry.slot]

theorem slot_emptyEntry (d : Direction) : RelEntry.emptyEntry.slot d = none := by
  cases d <;> rfl

/-! ## Lookup lemmas for the association-list map -/

theorem lookupE_setSlot (m : TRM) (k : Nat) (d : Direction) (v : Option Nat) (j : Nat) :
    lookupE (setSlot m k d v) j =
      if j = k then (lookupE m k).map (fun e => e.setDir d v) else lookupE m j := by
  induction m with
  | nil => simp only [setSlot, List.map_nil, lookupE, Option.map_none]; split <;> rfl
  | cons p m ih =>
    by_cases hk : p.1 = k
    · by_cases hj : p.1 = j
      · have hjk : j = k := hj ▸ hk
        simp [setSlot, lookupE, hk, hj, hjk]
      · have hjk : ¬ j = k := fun h => hj (h ▸ hk)
        simp only [setSlot, List.map_cons, hk, if_pos, lookupE] at *
        simp only [hj, if_neg, ite_false]
        simpa [setSlot, hjk] using ih
    · by_cases hj : p.1 = j
      · have hjk : ¬ j = k := fun h => hk (hj.trans h)
        simp [setSlot, lookupE, hk, hj, hjk]
      · simp only [setSlot, List.map_cons, hk, ite_false, lookupE, hj]
        simpa [setSlot] using ih

theorem getDir_setSlot (m : TRM) (k : Nat) (d : Direction) (v : Option Nat)
    (j : Nat) (d' : Direction) :
    getDir (setSlot m k d v) j d' =
      if j = k ∧ d' = d ∧ (lookupE m k).isSome then v else getDir m j d' := by
  unfold getDir
  rw [lookupE_setSlot]
  by_cases hj : j = k
  · subst hj
    cases h : lookupE m j with
    | none => simp [h]
    | some e => simp [h, slot_setDir]
  · simp [hj]

theorem isSome_lookupE_setSlot (m : TRM) (k : Nat) (d : Direction) (v : Option Nat) (j : Nat) :
    (lookupE (setSlot m k d v) j).isSome = (lookupE m j).isSome := by
  rw [lookupE_setSlot]
  by_cases hj : j = k
  · subst hj; cases lookupE m j <;> simp
  · simp [hj]

theorem setSlot_of_lookupE_none {m : TRM} {k : Nat} (h : lookupE m k = none)
    (d : Direction) (v : Option Nat) : setSlot m k d v = m := by
  induction m with
  | nil => rfl
  | cons p m ih =>
    by_cases hk : p.1 = k
    · simp [lookupE, hk] at h
    · simp only [lookupE, hk, ite_false] at h
      have hc : setSlot (p :: m) k d v = p :: setSlot m k d v := by
        simp [setSlot, hk]
      rw [hc, ih h]

theorem lookupE_append_of_isSome {m : TRM} {j : Nat} {x : RelEntry}
    (h : lookupE m j = some x) (l2 : TRM) : lookupE (m ++ l2) j = some x := by
  induction m with
  | nil => simp [lookupE] at h
  | cons p m ih =>
    by_cases hp : p.1 = j
    · simp only [lookupE, hp, if_pos] at h ⊢
      exact h
    · simp only [lookupE, hp, ite_false, List.cons_append] at h ⊢
      exact ih h

theorem lookupE_append_of_none {m : TRM} {j : Nat}
    (h : lookupE m j = none) (l2 : TRM) : lookupE (m ++ l2) j = lookupE l2 j := by
  induction m with
  | nil => rfl
  | cons p m ih =>
    by_cases hp : p.1 = j
    · simp [lookupE, hp] at h
    · simp only [lookupE, hp, ite_false, List.cons_append] at h ⊢
      exact ih h

theorem getDir_addTask (m : TRM) (k : Nat) (j : Nat) (d : Direction) :
    getDir (addTask m k) j d = getDir m j d := by
  unfold addTask
  split
  · rfl
  · rename_i hns
    have hn : lookupE m k = none := by
      cases h : lookupE m k with
      | none => rfl
      | some e => rw [h] at hns; simp at hns
    unfold getDir
    cases hj : lookupE m j with
    | some x => rw [lookupE_append_of_isSome hj]
    | none =>
      rw [lookupE_append_of_none hj]
      by_cases hkj : k = j
      · simp [lookupE, hkj, slot_emptyEntry]
      · simp [lookupE, hkj]

theorem isSome_lookupE_addTask_self (m : TRM) (k : Nat) :
    (lookupE (addTask m k) k).isSome = true := by
  unfold addTask
  split
  · assumption
  · rename_i hns
    have hn : lookupE m k = none := by
      cases h : lookupE m k with
      | none => rfl
      | some e => rw [h] at hns; simp at hns
    rw [lookupE_append_of_none hn]
    simp [lookupE]

theorem isSome_lookupE_addTask (m : TRM) (k j : Nat) :
    (lookupE m j).isSome = true → (lookupE (addTask m k) j).isSome = true := by
  intro h
  unfold addTask
  split
  · exact h
  · cases hj : lookupE m j with
    | none => rw [hj] at h; simp at h
    | some x => rw [lookupE_append_of_isSome hj]; rfl

theorem eraseKey_cons_self {p : Nat × RelEntry} {k : Nat} (hp : p.1 = k) (m : TRM) :
    eraseKey (p :: m) k = eraseKey m k := by
  simp [eraseKey, List.filter_cons, hp]

theorem eraseKey_cons_ne {p : Nat × RelEntry} {k : Nat} (hp : ¬ p.1 = k) (m : TRM) :
    eraseKey (p :: m) k = p :: eraseKey m k := by
  simp [eraseKey, List.filter_cons, hp]

theorem lookupE_eraseKey_self (m : TRM) (k : Nat) : lookupE (eraseKey m k) k = none := by
  induction m with
  | nil => rfl
  | cons p m ih =>
    by_cases hp : p.1 = k
    · rw [eraseKey_cons_self hp, ih]
    · rw [eraseKey_cons_ne hp]
      simp [lookupE, hp, ih]

theorem lookupE_eraseKey_ne {j k : Nat} (h : j ≠ k) (m : TRM) :
    lookupE (eraseKey m k) j = lookupE m j := by
  induction m with
  | nil => rfl
  | cons p m ih =>
    by_cases hp : p.1 = k
    · have hpj : ¬ p.1 = j := fun hh => h (hh ▸ hp)
      rw [eraseKey_cons_self hp, ih]
      simp [lookupE, hpj]
    · rw [eraseKey_cons_ne hp]
      by_cases hpj : p.1 = j
      · simp [lookupE, hpj]
      · simp [lookupE, hpj, ih]

theorem getDir_eraseKey (m : TRM) (k j : Nat) (d : Direction) :
    getDir (eraseKey m k) j d = if j = k then none else getDir m j d := by
  by_cases hj : j = k
  · subst hj; simp [getDir, lookupE_eraseKey_self]
  · simp [getDir, lookupE_eraseKey_ne hj, hj]

/-! ## Pointwise characterization of set_relationship and remove_node -/

theorem getDir_set_some (m : TRM) (a : Nat) (d : Direction) (b : Nat)
    (j : Nat) (d' : Direction) :
    getDir (set_relationship m a d (some b)) j d' =
      if j = b ∧ d' = get_reverse_direction d then some a
      else if j = a ∧ d' = d then some b
      else getDir m j d' := by
  have hform : set_relationship m a d (some b) =
      setSlot (setSlot (addTask (addTask m a) b) a d (some b)) b
        (get_reverse_direction d) (some a) := rfl
  have ha2 : (lookupE (addTask (addTask m a) b) a).isSome = true :=
    isSome_lookupE_addTask (addTask m a) b a (isSome_lookupE_addTask_self m a)
  have hb3 : (lookupE (setSlot (addTask (addTask m a) b) a d (some b)) b).isSome = true := by
    rw [isSome_lookupE_setSlot]
    exact isSome_lookupE_addTask_self (addTask m a) b
  rw [hform, getDir_setSlot, getDir_setSlot]
  simp only [ha2, hb3, and_true, getDir_addTask]

theorem getDir_set_none (m : TRM) (a : Nat) (d : Direction) (j : Nat) (d' : Direction) :
    getDir (set_relationship m a d none) j d' =
      if j = a ∧ d' = d then none else getDir m j d' := by
  have hform : set_relationship m a d none = setSlot (addTask m a) a d none := rfl
  have ha : (lookupE (addTask m a) a).isSome = true := isSome_lookupE_addTask_self m a
  rw [hform, getDir_setSlot]
  simp only [ha, and_true, getDir_addTask]

theorem getDir_clearStep (m : TRM) (i : Nat) (d : Direction) (j : Nat) (d' : Direction) :
    getDir (clearStep m i d) j d' =
      if getDir m i d = some j ∧ d' = get_reverse_direction d then none
      else getDir m j d' := by
  unfold clearStep
  cases hn : getDir m i d with
  | none => simp
  | some n =>
    rw [getDir_setSlot]
    by_cases hj : j = n
    · subst hj
      by_cases hd : d' = get_reverse_direction d
      · subst hd
        cases hs : lookupE m j with
        | some e =>
          rw [if_pos ⟨rfl, rfl, rfl⟩, if_pos ⟨rfl, rfl⟩]
        | none =>
          rw [if_neg (by rintro ⟨-, -, hclash⟩; exact absurd hclash (by decide)),
              if_pos ⟨rfl, rfl⟩]
          simp [getDir, hs]
      · rw [if_neg (by rintro ⟨-, hclash, -⟩; exact hd hclash),
            if_neg (by rintro ⟨-, hclash⟩; exact hd hclash)]
    · rw [if_neg (by rintro ⟨hclash, -, -⟩; exact hj hclash),
          if_neg (by rintro ⟨hclash, -⟩; exact hj (Option.some_inj.mp hclash).symm)]

theorem mem_allDirections (d : Direction) : d ∈ allDirections := by
  cases d <;> simp [allDirections]

theorem noDangling_nil : NoDangling ([] : TRM) := by
  intro j d n h
  simp [getDir, lookupE] at h

/-! ## Preservation of the no-dangling-edge invariant -/

theorem noDangling_set_some {m : TRM} {a : Nat} {d : Direction} {b : Nat}
    (h : NoDangling m) (hd : getDir m a d = none)
    (hb : getDir m b (get_reverse_direction d) = none) :
    NoDangling (set_relationship m a d (some b)) := by
  intro j d' n hjn
  rw [getDir_set_some] at hjn
  rw [getDir_set_some]
  by_cases h1 : j = b ∧ d' = get_reverse_direction d
  · rw [if_pos h1] at hjn
    obtain ⟨rfl, rfl⟩ := h1
    have hna : n = a := (Option.some_inj.mp hjn).symm
    subst hna
    rw [reverse_reverse]
    rw [if_neg (by rintro ⟨-, hdd⟩; exact reverse_ne d hdd.symm), if_pos ⟨rfl, rfl⟩]
  · rw [if_neg h1] at hjn
    by_cases h2 : j = a ∧ d' = d
    · rw [if_pos h2] at hjn
      obtain ⟨rfl, rfl⟩ := h2
      have hnb : n = b := (Option.some_inj.mp hjn).symm
      subst hnb
      rw [if_pos ⟨rfl, rfl⟩]
    · rw [if_neg h2] at hjn
      have hback := h j d' n hjn
      by_cases h3 : n = b ∧ get_reverse_direction d' = get_reverse_direction d
      · exfalso
        obtain ⟨rfl, hdd⟩ := h3
        have hde : d' = d := reverse_inj hdd
        subst hde
        rw [hback] at hb
        simp at hb
      · rw [if_neg h3]
        by_cases h4 : n = a ∧ get_reverse_direction d' = d
        · exfalso
          obtain ⟨rfl, hdd⟩ := h4
          rw [hdd] at hback
          rw [hback] at hd
          simp at hd
        · rw [if_neg h4]
          exact hback

theorem noDangling_set_none {m : TRM} {a : Nat} {d : Direction}
    (h : NoDangling m) (hd : getDir m a d = none) :
    NoDangling (set_relationship m a d none) := by
  intro j d' n hjn
  rw [getDir_set_none] at hjn
  rw [getDir_set_none]
  by_cases h1 : j = a ∧ d' = d
  · rw [if_pos h1] at hjn
    simp at hjn
  · rw [if_neg h1] at hjn
    have hback := h j d' n hjn
    by_cases h2 : n = a ∧ get_reverse_direction d' = d
    · exfalso
      obtain ⟨rfl, hdd⟩ := h2
      rw [hdd] at hback
      rw [hback] at hd
      simp at hd
    · rw [if_neg h2]
      exact hback

theorem clearStep_R {m0 mc : TRM} {i : Nat} (h0 : NoDangling m0)
    (hR1 : ∀ j d', j ≠ i → getDir mc j d' = getDir m0 j d' ∨
        (getDir mc j d' = none ∧ getDir m0 j d' = some i))
    (hR2 : ∀ d', getDir mc i d' = getDir m0 i d' ∨
        (getDir mc i d' = none ∧ getDir m0 i d' = some i)) (d : Direction) :
    (∀ j d', j ≠ i → getDir (clearStep mc i d) j d' = getDir m0 j d' ∨
        (getDir (clearStep mc i d) j d' = none ∧ getDir m0 j d' = some i))
    ∧ (∀ d', getDir (clearStep mc i d) i d' = getDir m0 i d' ∨
        (getDir (clearStep mc i d) i d' = none ∧ getDir m0 i d' = some i)) := by
  constructor
  · intro j d' hji
    rw [getDir_clearStep]
    by_cases hc : getDir mc i d = some j ∧ d' = get_reverse_direction d
    · rw [if_pos hc]
      obtain ⟨hcj, rfl⟩ := hc
      right
      refine ⟨rfl, ?_⟩
      have hij : getDir m0 i d = some j := by
        rcases hR2 d with heq | ⟨hnone, _⟩
        · rw [← heq]; exact hcj
        · rw [hnone] at hcj; simp at hcj
      exact h0 i d j hij
    · rw [if_neg hc]
      exact hR1 j d' hji
  · intro d'
    rw [getDir_clearStep]
    by_cases hc : getDir mc i d = some i ∧ d' = get_reverse_direction d
    · rw [if_pos hc]
      obtain ⟨hci, rfl⟩ := hc
      right
      refine ⟨rfl, ?_⟩
      have hio : getDir m0 i d = some i := by
        rcases hR2 d with heq | ⟨hnone, _⟩
        · rw [← heq]; exact hci
        · rw [hnone] at hci; simp at hci
      exact h0 i d i hio
    · rw [if_neg hc]
      exact hR2 d'

theorem clearStep_clears {m0 mc : TRM} {i : Nat} (h0 : NoDangling m0)
    (hR2 : ∀ d', getDir mc i d' = getDir m0 i d' ∨
        (getDir mc i d' = none ∧ getDir m0 i d' = some i)) (d : Direction)
    {j : Nat} (hji : j ≠ i)
    (hpt : getDir m0 j (get_reverse_direction d) = some i) :
    getDir (clearStep mc i d) j (get_reverse_direction d) = none := by
  have hid : getDir m0 i d = some j := by
    have hh := h0 j (get_reverse_direction d) i hpt
    rwa [reverse_reverse] at hh
  have hcd : getDir mc i d = some j := by
    rcases hR2 d with heq | ⟨hnone, horig⟩
    · rw [heq]; exact hid
    · rw [horig] at hid
      exact absurd (Option.some_inj.mp hid).symm hji
  rw [getDir_clearStep, if_pos ⟨hcd, rfl⟩]

theorem clearStep_none_mono {mc : TRM} {i : Nat} {j : Nat} {d' : Direction}
    (h : getDir mc j d' = none) (d : Direction) :
    getDir (clearStep mc i d) j d' = none := by
  rw [getDir_clearStep]
  split
  · rfl
  · exact h

theorem clearFold_none_mono {i : Nat} {j : Nat} {d' : Direction} :
    ∀ (ds : List Direction) (mc : TRM), getDir mc j d' = none →
      getDir (ds.foldl (fun acc d => clearStep acc i d) mc) j d' = none := by
  intro ds
  induction ds with
  | nil => intro mc h; exact h
  | cons d ds ih =>
    intro mc h
    simp only [List.foldl_cons]
    exact ih _ (clearStep_none_mono h d)

theorem clearFold_R {m0 : TRM} (i : Nat) (h0 : NoDangling m0) :
    ∀ (ds : List Direction) (mc : TRM),
      (∀ j d', j ≠ i → getDir mc j d' = getDir m0 j d' ∨
          (getDir mc j d' = none ∧ getDir m0 j d' = some i)) →
      (∀ d', getDir mc i d' = getDir m0 i d' ∨
          (getDir mc i d' = none ∧ getDir m0 i d' = some i)) →
      (∀ j d', j ≠ i →
          getDir (ds.foldl (fun acc d => clearStep acc i d) mc) j d' = getDir m0 j d' ∨
          (getDir (ds.foldl (fun acc d => clearStep acc i d) mc) j d' = none ∧
            getDir m0 j d' = some i))
      ∧ (∀ d ∈ ds, ∀ j, j ≠ i → getDir m0 j (get_reverse_direction d) = some i →
          getDir (ds.foldl (fun acc d => clearStep acc i d) mc) j
            (get_reverse_direction d) = none) := by
  intro ds
  induction ds with
  | nil =>
    intro mc h1 h2
    exact ⟨fun j d' hji => h1 j d' hji, fun d hd => absurd hd (List.not_mem_nil d)⟩
  | cons d ds ih =>
    intro mc h1 h2
    obtain ⟨h1s, h2s⟩ := clearStep_R h0 h1 h2 d
    have hfold := ih (clearStep mc i d) h1s h2s
    simp only [List.foldl_cons]
    refine ⟨hfold.1, ?_⟩
    intro d0 hd0 j hji hpt
    rcases List.mem_cons.mp hd0 with rfl | hmem
    · exact clearFold_none_mono ds _ (clearStep_clears h0 h2 d0 hji hpt)
    · exact hfold.2 d0 hmem j hji hpt

theorem noDangling_remove {m : TRM} (h : NoDangling m) (i : Nat) :
    NoDangling (remove_node m i) := by
  unfold remove_node
  split
  · intro j d' n hjn
    rw [getDir_eraseKey] at hjn
    by_cases hji : j = i
    · rw [if_pos hji] at hjn; simp at hjn
    · rw [if_neg hji] at hjn
      have hfold := clearFold_R i h allDirections m
        (fun _ _ _ => Or.inl rfl) (fun _ => Or.inl rfl)
      have horig : getDir m j d' = some n := by
        rcases hfold.1 j d' hji with heq | ⟨hnone, _⟩
        · rw [← heq]; exact hjn
        · rw [hnone] at hjn; simp at hjn
      have hni : n ≠ i := by
        rintro rfl
        have hcl := hfold.2 (get_reverse_direction d') (mem_allDirections _) j hji
          (by rw [reverse_reverse]; exact horig)
        rw [reverse_reverse] at hcl
        rw [hcl] at hjn
        simp at hjn
      have hback := h j d' n horig
      rw [getDir_eraseKey, if_neg hni]
      rcases hfold.1 n (get_reverse_direction d') hni with heq | ⟨_, hio⟩
      · rw [heq]; exact hback
      · rw [hback] at hio
        exact absurd (Option.some_inj.mp hio) hji
  · exact h

/-- C4 counterexample: after SetRelation(1, Up, 2) followed by the
overwriting SetRelation(1, Up, 3), node 2 still holds Down = 1 while node 1
holds Up = 3 — a dangling one-directional edge survives, so the claimed
invariant fails for this operation sequence. -/
theorem c4_counterexample :
    ¬ NoDangling (applyOps []
      [.setRel 1 .up (some 2), .setRel 1 .up (some 3)]) := by
  intro h
  have h2 := h 2 .down 1 (by decide)
  exact absurd h2 (by decide)

/-- C4 (amended): immediately after any SetRelation(a, d, b) the reverse
slot of b holds a (Up and Down swap, Left and Right swap); and the
no-dangling-edge invariant is preserved by Remove and by every SetRelation
call that does not overwrite an existing forward or reverse neighbor.  An
overwriting SetRelation can leave a one-directional edge
(see the counterexample). -/
theorem c4_reverse_link_amended :
    (∀ (m : TRM) (a : Nat) (d : Direction) (b : Nat),
        getDir (set_relationship m a d (some b)) b (get_reverse_direction d) = some a)
    ∧ (∀ (m : TRM) (ops : List GraphOp), NoDangling m → goodOps m ops = true →
        NoDangling (applyOps m ops)) := by
  constructor
  · intro m a d b
    rw [getDir_set_some, if_pos ⟨rfl, rfl⟩]
  · intro m ops
    induction ops generalizing m with
    | nil => intro h _; exact h
    | cons op ops ih =>
      intro h hg
      simp only [goodOps, Bool.and_eq_true] at hg
      obtain ⟨hop, hops⟩ := hg
      simp only [applyOps, List.foldl_cons]
      refine ih (applyOp m op) ?_ hops
      cases op with
      | setRel a d b =>
        cases b with
        | none =>
          simp only [goodOp, Bool.and_eq_true, decide_eq_true_eq] at hop
          exact noDangling_set_none h hop.1
        | some t =>
          simp only [goodOp, Bool.and_eq_true, decide_eq_true_eq] at hop
          exact noDangling_set_some h hop.1 hop.2
      | remove a => exact noDangling_remove h a

/-- Witness for c4_reverse_link_amended: a concrete non-overwriting
sequence keeps the invariant. -/
theorem c4_reverse_link_amended_witness :
    NoDangling (applyOps [] [.setRel 1 .up (some 2), .remove 1]) :=
  c4_reverse_link_amended.2 [] [.setRel 1 .up (some 2), .remove 1]
    noDangling_nil (by decide)

/-! ## Sibling chaining (add_sub_tasks) -/

theorem getChainAux_none (m : TRM) (d : Direction) (fuel : Nat) :
    getChainAux m d fuel none = [] := by
  cases fuel <;> rfl

theorem getDir_linkChain_untouched (d : Direction) :
    ∀ (cs : List Nat) (m : TRM) (prev q : Nat) (d' : Direction),
      q ≠ prev → q ∉ cs →
      getDir (linkChain d m prev cs) q d' = getDir m q d' := by
  intro cs
  induction cs with
  | nil => intro m prev q d' _ _; rfl
  | cons c cs ih =>
    intro m prev q d' hqp hqcs
    have hqc : q ≠ c := fun hh => hqcs (hh ▸ List.mem_cons_self c cs)
    have hqcs2 : q ∉ cs := fun hh => hqcs (List.mem_cons_of_mem c hh)
    show getDir (linkChain d (set_relationship m prev d (some c)) c cs) q d' = _
    rw [ih _ c q d' hqc hqcs2, getDir_set_some,
        if_neg (by rintro ⟨hclash, -⟩; exact hqc hclash),
        if_neg (by rintro ⟨hclash, -⟩; exact hqp hclash)]

theorem linkChain_chain (d : Direction) :
    ∀ (cs : List Nat) (m : TRM) (prev : Nat),
      0 < prev → (∀ c ∈ cs, 0 < c) → cs.Nodup → prev ∉ cs →
      (∀ c ∈ cs, ∀ d', getDir m c d' = none) → getDir m prev d = none →
      ∀ fuel, cs.length + 1 ≤ fuel →
      getChainAux (linkChain d m prev cs) d fuel (some prev) = prev :: cs := by
  intro cs
  induction cs with
  | nil =>
    intro m prev hprev _ _ _ _ hpd fuel hfuel
    obtain ⟨f, rfl⟩ : ∃ f, fuel = f + 1 := by
      cases fuel with
      | zero => omega
      | succ f => exact ⟨f, rfl⟩
    obtain ⟨p, rfl⟩ : ∃ p, prev = p + 1 := by
      cases prev with
      | zero => omega
      | succ p => exact ⟨p, rfl⟩
    show getChainAux m d (f + 1) (some (p + 1)) = [p + 1]
    rw [getChainAux, hpd, getChainAux_none]
  | cons c cs ih =>
    intro m prev hprev hpos hnd hpcs hfresh hpd fuel hfuel
    have hpc : prev ≠ c := fun hh => hpcs (hh ▸ List.mem_cons_self c cs)
    have hpcs2 : prev ∉ cs := fun hh => hpcs (List.mem_cons_of_mem c hh)
    have hccs : c ∉ cs := (List.nodup_cons.mp hnd).1
    have hnd2 : cs.Nodup := (List.nodup_cons.mp hnd).2
    obtain ⟨f, rfl⟩ : ∃ f, fuel = f + 1 := by
      cases fuel with
      | zero => simp at hfuel
      | succ f => exact ⟨f, rfl⟩
    obtain ⟨p, hp⟩ : ∃ p, prev = p + 1 := by
      cases prev with
      | zero => omega
      | succ p => exact ⟨p, rfl⟩
    have hM : linkChain d m prev (c :: cs) =
        linkChain d (set_relationship m prev d (some c)) c cs := rfl
    have hprevdir :
        getDir (linkChain d (set_relationship m prev d (some c)) c cs) prev d = some c := by
      rw [getDir_linkChain_untouched d cs _ c prev d hpc hpcs2,
          getDir_set_some,
          if_neg (by rintro ⟨hclash, -⟩; exact hpc hclash),
          if_pos ⟨rfl, rfl⟩]
    have htail :
        getChainAux (linkChain d (set_relationship m prev d (some c)) c cs) d f (some c)
          = c :: cs := by
      refine ih (set_relationship m prev d (some c)) c
        (hpos c (List.mem_cons_self c cs))
        (fun x hx => hpos x (List.mem_cons_of_mem c hx)) hnd2 hccs ?_ ?_ f ?_
      · intro x hx d'
        have hxc : x ≠ c := fun hh => hccs (hh ▸ hx)
        have hxp : x ≠ prev := fun hh => hpcs2 (hh ▸ hx)
        rw [getDir_set_some,
            if_neg (by rintro ⟨hclash, -⟩; exact hxc hclash),
            if_neg (by rintro ⟨hclash, -⟩; exact hxp hclash)]
        exact hfresh x (List.mem_cons_of_mem c hx) d'
      · rw [getDir_set_some,
            if_neg (by rintro ⟨-, hclash⟩; exact reverse_ne d hclash.symm),
            if_neg (by rintro ⟨hclash, -⟩; exact hpc hclash.symm)]
        exact hfresh c (List.mem_cons_self c cs) d
      · simp at hfuel
        omega
    rw [hM]
    subst hp
    show getChainAux _ d (f + 1) (some (p + 1)) = (p + 1) :: c :: cs
    rw [getChainAux, hprevdir, htail]

/-- C9 counterexample: parent 1 has no Down neighbor and Down is the first
available direction, but attaching the single child 2, which already has a
Down neighbor 3, makes the chain from the parent [1, 2, 3] instead of the
claimed [1, 2]; the claim fails as stated, without freshness assumptions on
the children. -/
theorem c9_counterexample :
    firstAvailableDirection (set_relationship [] 2 .down (some 3)) 1 = some .down
    ∧ getDir (set_relationship [] 2 .down (some 3)) 1 .down = none
    ∧ getChainAux (add_sub_tasks (set_relationship [] 2 .down (some 3)) 1 [2])
        .down 4 (some 1) = [1, 2, 3]
    ∧ [1, 2, 3] ≠ [1, 2] := by decide

/-- C9 (amended): for a parent with no neighbor in the chosen (first
available of Down, Right) direction and a non-empty list of fresh, pairwise
distinct children with nonzero ids, add_sub_tasks links the first child to
the parent and every later child to the previous child along that
direction, so the chain from the parent is exactly parent followed by the
children (for every sufficient fuel bound of the unbounded python while
loop). -/
theorem c9_add_children_chain :
    ∀ (m : TRM) (parent : Nat) (children : List Nat) (d : Direction),
      children ≠ [] →
      firstAvailableDirection m parent = some d →
      getDir m parent d = none →
      0 < parent → (∀ c ∈ children, 0 < c) →
      children.Nodup → parent ∉ children →
      (∀ c ∈ children, ∀ d', getDir m c d' = none) →
      ∀ fuel, children.length + 1 ≤ fuel →
      getChainAux (add_sub_tasks m parent children) d fuel (some parent)
        = parent :: children := by
  intro m parent children d hne hfa hpd hppos hcpos hnd hpc hfresh fuel hfuel
  cases children with
  | nil => exact absurd rfl hne
  | cons c cs =>
    have hform : add_sub_tasks m parent (c :: cs) = linkChain d m parent (c :: cs) := by
      simp [add_sub_tasks, hfa]
    rw [hform]
    exact linkChain_chain d (c :: cs) m parent hppos hcpos hnd hpc hfresh hpd fuel hfuel

/-- Witness for c9_add_children_chain at a concrete parent and children. -/
theorem c9_add_children_chain_witness :
    getChainAux (add_sub_tasks [] 1 [2, 3]) .down 3 (some 1) = [1, 2, 3] :=
  c9_add_children_chain [] 1 [2, 3] .down (by decide) (by decide) rfl
    (by decide) (by decide) (by decide) (by decide)
    (fun _ _ _ => rfl) 3 (by decide)

/-! ## Agent status machine lemmas -/

theorem agentInv_mono {es : List AgentEvent} {s : AgentState}
    (l : List AgentEvent) (h : agentInv es s) : agentInv (es ++ l) s := by
  obtain ⟨h1, h2, h3⟩ := h
  refine ⟨h1, fun hph => ?_, fun hph => ?_⟩
  · obtain ⟨hr, hd, hf, hwc⟩ := h2 hph
    exact ⟨hr, hd, fun hff => ⟨(hf hff).1, List.mem_append_left _ (hf hff).2⟩, hwc⟩
  · rcases h3 hph with ⟨ha, hb, hc⟩ | ⟨ha, hb, msg, hm, hsrc⟩
    · refine Or.inl ⟨ha, hb, ?_⟩
      rcases hc with hc | ⟨hc1, hc2⟩
      · exact Or.inl hc
      · exact Or.inr ⟨hc1, List.mem_append_left _ hc2⟩
    · refine Or.inr ⟨ha, hb, msg, hm, ?_⟩
      rcases hsrc with hsrc | hsrc
      · exact Or.inl hsrc
      · exact Or.inr (List.mem_append_left _ hsrc)

theorem agentInv_init : agentInv [] initialAgentState := by
  refine ⟨fun _ => ⟨rfl, rfl, rfl⟩, fun hph => ?_, fun hph => ?_⟩ <;>
    simp [initialAgentState] at hph

theorem agentInv_step {es : List AgentEvent} {s : AgentState} (e : AgentEvent)
    (h : agentInv es s) : agentInv (es ++ [e]) (agentStep s e) := by
  obtain ⟨h1, h2, h3⟩ := h
  cases e with
  | execStart =>
    by_cases hp : s.phase = .notStarted
    · obtain ⟨hst, hr, he⟩ := h1 hp
      rw [show agentStep s .execStart = { s with status := .working, phase := .started }
            from by simp [agentStep, hp]]
      refine ⟨fun hph => ?_, fun _ => ?_, fun hph => ?_⟩
      · simp at hph
      · exact ⟨hr, Or.inl rfl, fun hf => by simp at hf, fun _ => he⟩
      · simp at hph
    · rw [show agentStep s .execStart = s from by simp [agentStep, hp]]
      exact agentInv_mono [AgentEvent.execStart] ⟨h1, h2, h3⟩
  | execFinishOk v =>
    by_cases hp : s.phase = .started
    · obtain ⟨hr, hd, hf, hwc⟩ := h2 hp
      rw [show agentStep s (.execFinishOk v)
            = { s with result := some v, status := .success, phase := .finished }
            from by simp [agentStep, hp]]
      refine ⟨fun hph => ?_, fun hph => ?_, fun _ => ?_⟩
      · simp at hph
      · simp at hph
      · refine Or.inl ⟨rfl, by simp, ?_⟩
        rcases hd with hw | hw | hw
        · exact Or.inl (hwc (Or.inl hw))
        · exact Or.inl (hwc (Or.inr hw))
        · exact Or.inr ⟨(hf hw).1, List.mem_append_left _ (hf hw).2⟩
    · rw [show agentStep s (.execFinishOk v) = s from by simp [agentStep, hp]]
      exact agentInv_mono [AgentEvent.execFinishOk v] ⟨h1, h2, h3⟩
  | execFinishErr msg =>
    by_cases hp : s.phase = .started
    · obtain ⟨hr, hd, hf, hwc⟩ := h2 hp
      rw [show agentStep s (.execFinishErr msg)
            = { s with error := some msg, status := .failed, phase := .finished }
            from by simp [agentStep, hp]]
      refine ⟨fun hph => ?_, fun hph => ?_, fun _ => ?_⟩
      · simp at hph
      · simp at hph
      · exact Or.inr ⟨rfl, hr, msg, rfl, Or.inr (List.mem_append_right _ (by simp))⟩
    · rw [show agentStep s (.execFinishErr msg) = s from by simp [agentStep, hp]]
      exact agentInv_mono [AgentEvent.execFinishErr msg] ⟨h1, h2, h3⟩
  | cancel =>
    by_cases hs : s.status = .working
    · rw [show agentStep s .cancel = { s with status := .cancelled }
            from by simp [agentStep, hs]]
      refine ⟨fun hph => ?_, fun hph => ?_, fun hph => ?_⟩
      · have hcontra := (h1 hph).1
        rw [hs] at hcontra
        simp at hcontra
      · obtain ⟨hr, -, -, hwc⟩ := h2 hph
        exact ⟨hr, Or.inr (Or.inl rfl), fun hff => by simp at hff,
          fun _ => hwc (Or.inl hs)⟩
      · rcases h3 hph with ⟨hsu, -, -⟩ | ⟨hsu, -, -⟩ <;> rw [hs] at hsu <;> simp at hsu
    · rw [show agentStep s .cancel = s from by simp [agentStep, hs]]
      exact agentInv_mono [AgentEvent.cancel] ⟨h1, h2, h3⟩
  | stopAll =>
    by_cases hs : s.status = .working
    · rw [show agentStep s .stopAll
            = { s with status := .failed, error := some "Stopped by orchestrator" }
            from by simp [agentStep, hs]]
      refine ⟨fun hph => ?_, fun hph => ?_, fun hph => ?_⟩
      · have hcontra := (h1 hph).1
        rw [hs] at hcontra
        simp at hcontra
      · obtain ⟨hr, -, -, -⟩ := h2 hph
        refine ⟨hr, Or.inr (Or.inr rfl),
          fun _ => ⟨rfl, List.mem_append_right _ (by simp)⟩, fun hwcs => ?_⟩
        rcases hwcs with hx | hx <;> simp at hx
      · rcases h3 hph with ⟨hsu, -, -⟩ | ⟨hsu, -, -⟩ <;> rw [hs] at hsu <;> simp at hsu
    · rw [show agentStep s .stopAll = s from by simp [agentStep, hs]]
      exact agentInv_mono [AgentEvent.stopAll] ⟨h1, h2, h3⟩

theorem agentInv_run (es : List AgentEvent) : agentInv es (runAgent es) := by
  induction es using List.reverseRecOn with
  | nil => exact agentInv_init
  | append_singleton es e ih =>
    simp only [runAgent, List.foldl_append, List.foldl_cons, List.foldl_nil]
    exact agentInv_step e ih

theorem statusInv_init : statusInv initialAgentState := by
  refine ⟨fun _ => rfl, fun hph => ?_, fun hph => ?_⟩ <;>
    simp [initialAgentState] at hph

theorem statusInv_step {s : AgentState} (e : AgentEvent) (h : statusInv s) :
    statusInv (agentStep s e) := by
  obtain ⟨h1, h2, h3⟩ := h
  cases e with
  | execStart =>
    by_cases hp : s.phase = .notStarted
    · rw [show agentStep s .execStart = { s with status := .working, phase := .started }
            from by simp [agentStep, hp]]
      exact ⟨fun hph => by simp at hph, fun _ => Or.inl rfl, fun hph => by simp at hph⟩
    · rw [show agentStep s .execStart = s from by simp [agentStep, hp]]
      exact ⟨h1, h2, h3⟩
  | execFinishOk v =>
    by_cases hp : s.phase = .started
    · rw [show agentStep s (.execFinishOk v)
            = { s with result := some v, status := .success, phase := .finished }
            from by simp [agentStep, hp]]
      exact ⟨fun hph => by simp at hph, fun hph => by simp at hph, fun _ => Or.inl rfl⟩
    · rw [show agentStep s (.execFinishOk v) = s from by simp [agentStep, hp]]
      exact ⟨h1, h2, h3⟩
  | execFinishErr msg =>
    by_cases hp : s.phase = .started
    · rw [show agentStep s (.execFinishErr msg)
            = { s with error := some msg, status := .failed, phase := .finished }
            from by simp [agentStep, hp]]
      exact ⟨fun hph => by simp at hph, fun hph => by simp at hph, fun _ => Or.inr rfl⟩
    · rw [show agentStep s (.execFinishErr msg) = s from by simp [agentStep, hp]]
      exact ⟨h1, h2, h3⟩
  | cancel =>
    by_cases hs : s.status = .working
    · rw [show agentStep s .cancel = { s with status := .cancelled }
            from by simp [agentStep, hs]]
      refine ⟨fun hph => ?_, fun _ => Or.inr (Or.inl rfl), fun hph => ?_⟩
      · have hcontra := h1 hph
        rw [hs] at hcontra
        simp at hcontra
      · rcases h3 hph with hsu | hsu <;> rw [hs] at hsu <;> simp at hsu
    · rw [show agentStep s .cancel = s from by simp [agentStep, hs]]
      exact ⟨h1, h2, h3⟩
  | stopAll =>
    by_cases hs : s.status = .working
    · rw [show agentStep s .stopAll
            = { s with status := .failed, error := some "Stopped by orchestrator" }
            from by simp [agentStep, hs]]
      refine ⟨fun hph => ?_, fun _ => Or.inr (Or.inr rfl), fun hph => ?_⟩
      · have hcontra := h1 hph
        rw [hs] at hcontra
        simp at hcontra
      · rcases h3 hph with hsu | hsu <;> rw [hs] at hsu <;> simp at hsu
    · rw [show agentStep s .stopAll = s from by simp [agentStep, hs]]
      exact ⟨h1, h2, h3⟩

theorem agentStep_allowed {s : AgentState} (e : AgentEvent) (h : statusInv s) :
    s.status = (agentStep s e).status
      ∨ codeAllowedB s.status (agentStep s e).status = true := by
  obtain ⟨h1, h2, h3⟩ := h
  cases e with
  | execStart =>
    by_cases hp : s.phase = .notStarted
    · right
      rw [show (agentStep s .execStart).status = .working from by simp [agentStep, hp],
          h1 hp]
      rfl
    · left
      rw [show agentStep s .execStart = s from by simp [agentStep, hp]]
  | execFinishOk v =>
    by_cases hp : s.phase = .started
    · right
      rw [show (agentStep s (.execFinishOk v)).status = .success
            from by simp [agentStep, hp]]
      rcases h2 hp with hw | hw | hw <;> rw [hw] <;> rfl
    · left
      rw [show agentStep s (.execFinishOk v) = s from by simp [agentStep, hp]]
  | execFinishErr msg =>
    by_cases hp : s.phase = .started
    · rw [show (agentStep s (.execFinishErr msg)).status = .failed
            from by simp [agentStep, hp]]
      rcases h2 hp with hw | hw | hw
      · right; rw [hw]; rfl
      · right; rw [hw]; rfl
      · left; exact hw
    · left
      rw [show agentStep s (.execFinishErr msg) = s from by simp [agentStep, hp]]
  | cancel =>
    by_cases hs : s.status = .working
    · right
      rw [show (agentStep s .cancel).status = .cancelled from by simp [agentStep, hs], hs]
      rfl
    · left
      rw [show agentStep s .cancel = s from by simp [agentStep, hs]]
  | stopAll =>
    by_cases hs : s.status = .working
    · right
      rw [show (agentStep s .stopAll).status = .failed from by simp [agentStep, hs], hs]
      rfl
    · left
      rw [show agentStep s .stopAll = s from by simp [agentStep, hs]]

theorem statusTraceFrom_head (s : AgentState) (es : List AgentEvent) :
    ∃ t, statusTraceFrom s es = s.status :: t := by
  cases es with
  | nil => exact ⟨[], rfl⟩
  | cons e es => exact ⟨_, rfl⟩

theorem okTraceFrom (es : List AgentEvent) : ∀ s : AgentState, statusInv s →
    okTraceB codeAllowedB (statusTraceFrom s es) = true := by
  induction es with
  | nil => intro s _; rfl
  | cons e es ih =>
    intro s hinv
    obtain ⟨t, ht⟩ := statusTraceFrom_head (agentStep s e) es
    show okTraceB codeAllowedB (s.status :: statusTraceFrom (agentStep s e) es) = true
    rw [ht]
    have hrest : okTraceB codeAllowedB ((agentStep s e).status :: t) = true := by
      rw [← ht]
      exact ih (agentStep s e) (statusInv_step e hinv)
    have hhead : (decide (s.status = (agentStep s e).status)
        || codeAllowedB s.status (agentStep s e).status) = true := by
      rcases agentStep_allowed e hinv with heq | hall
      · rw [heq]; simp
      · rw [hall]; simp
    simp only [okTraceB, hrest, Bool.and_true]
    exact hhead

/-- C2 counterexample: cancel() during an in-flight execute() is later
overwritten when the task completes: the status trace of the interleaving
start, cancel, finish is Pending, Working, Cancelled, Success, and the
transition Cancelled to Success is outside the claimed relation — the agent
leaves a terminal state. -/
theorem c2_counterexample :
    okTraceB specAllowedB
      (statusTrace [.execStart, .cancel, .execFinishOk "r"]) = false := by
  decide

/-- C2 (amended): under any interleaving of one execute() call, cancel(),
task completion and stop_all_agents(), every status change is one of
Pending to Working, Working to Success, Failed or Cancelled, Cancelled to
Success or Failed, or Failed to Success — the last three occur when an
in-flight execution finishes after cancel() or stop_all_agents() forced a
terminal state. -/
theorem c2_status_transitions_amended :
    ∀ es : List AgentEvent, okTraceB codeAllowedB (statusTrace es) = true :=
  fun es => okTraceFrom es initialAgentState statusInv_init

/-- C6 counterexample: stop_all_agents() on a Working agent whose thread
later completes rests in Success with both result and the stale error
populated, violating exactly-one; and an exception with an empty message
gives a Failed agent with an empty error string. -/
theorem c6_counterexample :
    (runAgent [.execStart, .stopAll, .execFinishOk "r"]).status = .success
    ∧ (runAgent [.execStart, .stopAll, .execFinishOk "r"]).result = some "r"
    ∧ (runAgent [.execStart, .stopAll, .execFinishOk "r"]).error
        = some "Stopped by orchestrator"
    ∧ (runAgent [.execStart, .execFinishErr ""]).status = .failed
    ∧ (runAgent [.execStart, .execFinishErr ""]).error = some "" := by
  decide

/-- C6 (amended): provided every exception message raised by the task is
non-empty, an agent at rest in Failed has a non-empty error and no result,
and an agent at rest in Success has a non-nil result, with error empty
unless stop_all_agents() fired during the run (in which case the stale
stop error may remain next to the result). -/
theorem c6_terminal_fields_amended :
    ∀ es : List AgentEvent,
      (∀ msg, AgentEvent.execFinishErr msg ∈ es → msg ≠ "") →
      ((runAgent es).status = .failed →
        (runAgent es).result = none ∧
        ∃ msg, (runAgent es).error = some msg ∧ msg ≠ "")
      ∧ ((runAgent es).status = .success →
        (runAgent es).result ≠ none ∧
        (AgentEvent.stopAll ∉ es → (runAgent es).error = none)) := by
  intro es hmsgs
  obtain ⟨h1, h2, h3⟩ := agentInv_run es
  constructor
  · intro hfail
    cases hph : (runAgent es).phase with
    | notStarted =>
      have hcontra := (h1 hph).1
      rw [hfail] at hcontra
      simp at hcontra
    | started =>
      obtain ⟨hr, -, hf, -⟩ := h2 hph
      obtain ⟨he, -⟩ := hf hfail
      exact ⟨hr, "Stopped by orchestrator", he, by decide⟩
    | finished =>
      rcases h3 hph with ⟨hsu, -, -⟩ | ⟨-, hr, msg, hm, hsrc⟩
      · rw [hfail] at hsu
        simp at hsu
      · refine ⟨hr, msg, hm, ?_⟩
        rcases hsrc with rfl | hin
        · decide
        · exact hmsgs msg hin
  · intro hsucc
    cases hph : (runAgent es).phase with
    | notStarted =>
      have hcontra := (h1 hph).1
      rw [hsucc] at hcontra
      simp at hcontra
    | started =>
      obtain ⟨-, hd, -, -⟩ := h2 hph
      rcases hd with hw | hw | hw <;> rw [hsucc] at hw <;> simp at hw
    | finished =>
      rcases h3 hph with ⟨-, hr, herr⟩ | ⟨hf, -, -⟩
      · refine ⟨hr, fun hnostop => ?_⟩
        rcases herr with he | ⟨-, hin⟩
        · exact he
        · exact absurd hin hnostop
      · rw [hsucc] at hf
        simp at hf

/-- Witness for c6_terminal_fields_amended on a concrete clean run. -/
theorem c6_terminal_fields_amended_witness :
    ((runAgent [.execStart, .execFinishOk "done"]).status = .failed →
      (runAgent [.execStart, .execFinishOk "done"]).result = none ∧
      ∃ msg, (runAgent [.execStart, .execFinishOk "done"]).error = some msg ∧ msg ≠ "")
    ∧ ((runAgent [.execStart, .execFinishOk "done"]).status = .success →
      (runAgent [.execStart, .execFinishOk "done"]).result ≠ none ∧
      (AgentEvent.stopAll ∉ [AgentEvent.execStart, AgentEvent.execFinishOk "done"] →
        (runAgent [.execStart, .execFinishOk "done"]).error = none)) :=
  c6_terminal_fields_amended [.execStart, .execFinishOk "done"]
    (fun _ hm => by simp at hm)

/-! ## Orchestrator registry lemmas -/

theorem mem_registerAgent (o : Registry) (a : OAgent) : a ∈ registerAgent o a := by
  unfold registerAgent
  split
  · rename_i hany
    obtain ⟨b, hb, hid⟩ := List.any_eq_true.mp hany
    refine List.mem_map.mpr ⟨b, hb, ?_⟩
    rw [if_pos (of_decide_eq_true hid)]
  · exact List.mem_append_right _ (by simp)

theorem create_agent_ok {o : Registry} (nid : Nat)
    (h : (get_running_agents o).length < maxConcurrentAgents) :
    create_agent o nid = .ok (registerAgent
      (if agentCleanupThreshold < o.length then
        cleanup_old_agents o (agentCleanupThreshold / 2) else o)
      { id := nid, status := .pending }) := by
  unfold create_agent
  rw [if_neg (Nat.not_le.mpr h)]

theorem create_registers {o : Registry} (nid : Nat)
    (h : (get_running_agents o).length < maxConcurrentAgents) :
    ∃ o2, create_agent o nid = .ok o2 ∧ (⟨nid, .pending⟩ : OAgent) ∈ o2 :=
  ⟨_, create_agent_ok nid h, mem_registerAgent _ _⟩

theorem setAgentStatus_eq_of_absent {o : Registry} {aid : Nat}
    (h : ∀ c ∈ o, c.id ≠ aid) (st : AgentStatus) : setAgentStatus o aid st = o := by
  induction o with
  | nil => rfl
  | cons b o ih =>
    have hb : b.id ≠ aid := h b (List.mem_cons_self b o)
    show (if b.id = aid then _ else b) :: setAgentStatus o aid st = b :: o
    rw [if_neg hb, ih (fun c hc => h c (List.mem_cons_of_mem b hc))]

theorem runningCount_setSuccess :
    ∀ (o : Registry), (o.map OAgent.id).Nodup →
      ∀ a ∈ o, a.status = .working →
      (get_running_agents (setAgentStatus o a.id .success)).length + 1
        = (get_running_agents o).length := by
  intro o
  induction o with
  | nil => intro _ a ha; exact absurd ha (List.not_mem_nil a)
  | cons b o ih =>
    intro hnd a ha hw
    have hnd2 : (o.map OAgent.id).Nodup := (List.nodup_cons.mp hnd).2
    have hbno : b.id ∉ o.map OAgent.id := (List.nodup_cons.mp hnd).1
    rcases List.mem_cons.mp ha with rfl | hmem
    · have hoabs : ∀ c ∈ o, c.id ≠ a.id := by
        intro c hc hceq
        exact hbno (hceq ▸ List.mem_map_of_mem OAgent.id hc)
      show (get_running_agents ((if a.id = a.id then { a with status := .success } else a)
          :: setAgentStatus o a.id .success)).length + 1
        = (get_running_agents (a :: o)).length
      rw [if_pos rfl, setAgentStatus_eq_of_absent hoabs]
      simp [get_running_agents, List.filter_cons, hw]
    · have hba : b.id ≠ a.id := by
        intro hceq
        exact hbno (hceq ▸ List.mem_map_of_mem OAgent.id hmem)
      show (get_running_agents ((if b.id = a.id then { b with status := .success } else b)
          :: setAgentStatus o a.id .success)).length + 1
        = (get_running_agents (b :: o)).length
      rw [if_neg hba]
      have hih := ih hnd2 a hmem hw
      by_cases hbw : b.status = .working
      · simp only [get_running_agents, List.filter_cons, hbw] at hih ⊢
        simp only [decide_eq_true_eq] at *
        simp [hbw] at *
        omega
      · simp only [get_running_agents, List.filter_cons] at hih ⊢
        simp [hbw] at *
        omega

/-- C3 counterexample: with four Working agents (reachable by creating
agents while previous ones had not yet reached Running and executing them
all), creation fails, and after one of them leaves Working creation still
fails — the claimed recovery after any one agent leaves Working does not
hold above the ceiling. -/
theorem c3_counterexample :
    create_agent [⟨1, .working⟩, ⟨2, .working⟩, ⟨3, .working⟩, ⟨4, .working⟩] 8
        = .error admissionErrorText
    ∧ ((⟨1, .working⟩ : OAgent) ∈
        ([⟨1, .working⟩, ⟨2, .working⟩, ⟨3, .working⟩, ⟨4, .working⟩] : Registry))
    ∧ create_agent
        (setAgentStatus
          [⟨1, .working⟩, ⟨2, .working⟩, ⟨3, .working⟩, ⟨4, .working⟩] 1 .success) 9
        = .error admissionErrorText := by
  decide

/-- C3 (amended): create_agent succeeds and registers a new Pending agent
whenever the count of Working (RUNNING) agents is strictly below the
ceiling 3; at or above the ceiling it fails with the typed admission error
and registers nothing; and when the count is exactly at the ceiling, after
any one agent leaves Working the next create_agent call succeeds again. -/
theorem c3_admission_amended :
    (∀ (o : Registry) (nid : Nat),
        (get_running_agents o).length < maxConcurrentAgents →
        ∃ o2, create_agent o nid = .ok o2 ∧ (⟨nid, .pending⟩ : OAgent) ∈ o2)
    ∧ (∀ (o : Registry) (nid : Nat),
        maxConcurrentAgents ≤ (get_running_agents o).length →
        create_agent o nid = .error admissionErrorText)
    ∧ (∀ (o : Registry) (nid : Nat) (a : OAgent),
        (o.map OAgent.id).Nodup → a ∈ o → a.status = .working →
        (get_running_agents o).length = maxConcurrentAgents →
        ∃ o2, create_agent (setAgentStatus o a.id .success) nid = .ok o2
          ∧ (⟨nid, .pending⟩ : OAgent) ∈ o2) := by
  refine ⟨fun o nid h => create_registers nid h, fun o nid h => ?_, fun o nid a hnd ha hw hc => ?_⟩
  · unfold create_agent
    rw [if_pos h]
  · refine create_registers nid ?_
    have hcount := runningCount_setSuccess o hnd a ha hw
    omega

/-- Witness for c3_admission_amended at a registry with exactly three
Working agents. -/
theorem c3_admission_amended_witness :
    ∃ o2, create_agent (setAgentStatus
        [⟨1, .working⟩, ⟨2, .working⟩, ⟨3, .working⟩] 1 .success) 9 = .ok o2
      ∧ (⟨9, .pending⟩ : OAgent) ∈ o2 :=
  c3_admission_amended.2.2 [⟨1, .working⟩, ⟨2, .working⟩, ⟨3, .working⟩] 9
    ⟨1, .working⟩ (by decide) (by decide) rfl (by decide)

/-! ## Capacity eviction -/

theorem cleanup_length {o : Registry} {keep : Nat} (h : keep < o.length) :
    (cleanup_old_agents o keep).length = keep := by
  unfold cleanup_old_agents
  rw [if_pos h, List.length_take, List.length_insertionSort]
  omega

theorem cleanup_keeps_largest {o : Registry} {keep : Nat} (h : keep < o.length) :
    ∀ a ∈ cleanup_old_agents o keep, ∀ b ∈ o, b ∉ cleanup_old_agents o keep →
      b.id ≤ a.id := by
  intro a ha b hb hbn
  unfold cleanup_old_agents at ha hbn
  rw [if_pos h] at ha hbn
  have hsorted : List.Sorted idDesc (List.insertionSort idDesc o) :=
    List.sorted_insertionSort idDesc o
  have hbs : b ∈ List.insertionSort idDesc o :=
    ((List.perm_insertionSort idDesc o).mem_iff).mpr hb
  have hbdrop : b ∈ (List.insertionSort idDesc o).drop keep := by
    have hsplit : b ∈ (List.insertionSort idDesc o).take keep
        ++ (List.insertionSort idDesc o).drop keep := by
      rw [List.take_append_drop]
      exact hbs
    rcases List.mem_append.mp hsplit with hx | hx
    · exact absurd hx hbn
    · exact hx
  have hpair : List.Pairwise idDesc ((List.insertionSort idDesc o).take keep
      ++ (List.insertionSort idDesc o).drop keep) := by
    rw [List.take_append_drop]
    exact hsorted
  exact (List.pairwise_append.mp hpair).2.2 a ha b hbdrop

theorem create_agent_cleanup {o : Registry} (nid : Nat)
    (hlen : agentCleanupThreshold < o.length)
    (hrun : (get_running_agents o).length < maxConcurrentAgents) :
    create_agent o nid = .ok (registerAgent
      (cleanup_old_agents o (agentCleanupThreshold / 2)) ⟨nid, .pending⟩) := by
  unfold create_agent
  rw [if_neg (Nat.not_le.mpr hrun)]
  simp [hlen]

/-- C8 counterexample: a registry of 21 agents whose oldest (id 1, created
first) is still Working; create_agent triggers eviction and the Working
agent is removed — eviction does not spare Working agents. -/
theorem c8_counterexample :
    20 < c8CexRegistry.length
    ∧ (⟨1, .working⟩ : OAgent) ∈ c8CexRegistry
    ∧ create_agent c8CexRegistry 99
        = .ok (registerAgent (cleanup_old_agents c8CexRegistry 10) ⟨99, .pending⟩)
    ∧ ∀ a ∈ registerAgent (cleanup_old_agents c8CexRegistry 10) ⟨99, .pending⟩,
        a.id ≠ 1 := by
  decide

/-- C8 (amended): once the registered count exceeds the high-water mark
(20), create_agent prunes the registry down to the low-water mark (20 / 2 =
10) keeping exactly the agents with the largest ids — the oldest agents by
id order are removed regardless of status, including agents still
Working. -/
theorem c8_eviction_amended :
    (∀ (o : Registry) (nid : Nat),
        agentCleanupThreshold < o.length →
        (get_running_agents o).length < maxConcurrentAgents →
        create_agent o nid = .ok (registerAgent
          (cleanup_old_agents o (agentCleanupThreshold / 2)) ⟨nid, .pending⟩))
    ∧ (∀ (o : Registry) (keep : Nat), keep < o.length →
        (cleanup_old_agents o keep).length = keep)
    ∧ (∀ (o : Registry) (keep : Nat), keep < o.length →
        ∀ a ∈ cleanup_old_agents o keep, ∀ b ∈ o, b ∉ cleanup_old_agents o keep →
          b.id ≤ a.id) :=
  ⟨fun _ nid h1 h2 => create_agent_cleanup nid h1 h2,
   fun _ _ h => cleanup_length h,
   fun _ _ h => cleanup_keeps_largest h⟩

/-- Witness for c8_eviction_amended at the concrete 21-agent registry. -/
theorem c8_eviction_amended_witness :
    create_agent c8CexRegistry 99
      = .ok (registerAgent (cleanup_old_agents c8CexRegistry 10) ⟨99, .pending⟩) :=
  (c8_eviction_amended.1 c8CexRegistry 99 (by decide) (by decide) : _)

/-! ## Conversation loop lemmas -/

theorem runDetectedTool_preserves (st : LoopState) (name : String) (t : MTool)
    (cmd : String) :
    (runDetectedTool st name t cmd).iteration = st.iteration
    ∧ (runDetectedTool st name t cmd).backoff = st.backoff := by
  unfold runDetectedTool
  cases t.run cmd <;> exact ⟨rfl, rfl⟩

theorem processToolsAux_preserves (r : String) :
    ∀ (tools : List (String × MTool)) (st : LoopState),
      (processToolsAux r st tools).1.iteration = st.iteration
      ∧ (processToolsAux r st tools).1.backoff = st.backoff := by
  intro tools
  induction tools with
  | nil => intro st; exact ⟨rfl, rfl⟩
  | cons nt rest ih =>
    intro st
    obtain ⟨name, t⟩ := nt
    simp only [processToolsAux]
    cases hen : t.enabled with
    | false =>
      simp only [Bool.not_false, if_true]
      exact ih st
    | true =>
      simp only [Bool.not_true, Bool.false_eq_true, if_false]
      cases hdet : t.detect r with
      | none => exact ih st
      | some cmd => exact runDetectedTool_preserves st name t cmd

theorem processToolsAux_no_detect {r : String} :
    ∀ (tools : List (String × MTool)) (st : LoopState),
      (∀ nt ∈ tools, nt.2.enabled = true → nt.2.detect r = none) →
      processToolsAux r st tools = (st, false) := by
  intro tools
  induction tools with
  | nil => intro st _; rfl
  | cons nt rest ih =>
    intro st h
    obtain ⟨name, t⟩ := nt
    simp only [processToolsAux]
    cases hen : t.enabled with
    | false =>
      simp only [Bool.not_false, if_true]
      exact ih st (fun q hq => h q (List.mem_cons_of_mem _ hq))
    | true =>
      have hdet : t.detect r = none := h (name, t) (List.mem_cons_self _ _) hen
      simp only [Bool.not_true, Bool.false_eq_true, if_false, hdet]
      exact ih st (fun q hq => h q (List.mem_cons_of_mem _ hq))

theorem loopStep_iteration (backend : Nat → BackendOutcome)
    (tools : List (String × MTool)) (st : LoopState) :
    (loopStep backend tools st).state.iteration = st.iteration + 1 := by
  cases hb : backend (st.iteration + 1) with
  | ok content =>
    by_cases hc : content = ""
    · subst hc
      simp only [loopStep, hb]
      rw [if_pos trivial]
      split <;> rfl
    · simp only [loopStep, hb, hc, if_false, ite_false]
      split <;> exact (processToolsAux_preserves content tools _).1
  | exn msg =>
    by_cases hrl : isRateLimitError msg = true
    · simp only [loopStep, hb, hrl, if_true]
      rfl
    · simp only [loopStep, hb, hrl, Bool.false_eq_true, if_false]
      split <;> rfl

theorem runLoopAux_iteration_le (backend : Nat → BackendOutcome)
    (tools : List (String × MTool)) :
    ∀ (fuel : Nat) (st : LoopState),
      (runLoopAux backend tools fuel st).iteration ≤ st.iteration + fuel := by
  intro fuel
  induction fuel with
  | zero => intro st; simp [runLoopAux]
  | succ fuel ih =>
    intro st
    have hit := loopStep_iteration backend tools st
    simp only [runLoopAux]
    cases hstep : loopStep backend tools st with
    | halt st2 =>
      rw [hstep] at hit
      simp only [StepResult.state] at hit
      show st2.iteration ≤ st.iteration + (fuel + 1)
      omega
    | next st2 =>
      rw [hstep] at hit
      simp only [StepResult.state] at hit
      show (runLoopAux backend tools fuel st2).iteration ≤ st.iteration + (fuel + 1)
      have hr := ih st2
      omega

/-- C1: for every model backend behavior and tool set, the conversation
loop executes at most max_iterations iterations and then stops (the loop
body increments the iteration counter by exactly one on every path, so the
final iteration count bounds the number of executed passes); the
max_iterations config value is 25, inside the 15 to 25 range. -/
theorem c1_loop_iteration_bound :
    (∀ (backend : Nat → BackendOutcome) (tools : List (String × MTool))
        (history0 : List ChatMsg),
        (run_streaming_conversation_loop backend tools history0).iteration
          ≤ max_iterations)
    ∧ max_iterations = 25 ∧ 15 ≤ max_iterations ∧ max_iterations ≤ 25 := by
  refine ⟨fun backend tools history0 => ?_, rfl, by decide, by decide⟩
  have h := runLoopAux_iteration_le backend tools max_iterations (initLoopState history0)
  simpa [run_streaming_conversation_loop, initLoopState] using h

theorem backoffAfterEvents_closed (k : Nat) :
    backoffAfterEvents k = min (5 * 2 ^ k) maxBackoff := by
  induction k with
  | zero => decide
  | succ k ih =>
    rw [backoffAfterEvents, ih, handle_rate_limiting]
    have h2 : 5 * 2 ^ (k + 1) = 5 * 2 ^ k * 2 := by ring
    rw [h2]
    unfold maxBackoff
    generalize 5 * 2 ^ k = a
    omega

/-- C10: the backoff starts at the base delay 5; after k consecutive
rate-limit events the stored backoff is min(5 * 2 ^ k, 300); each detected
rate-limit event inside the loop applies exactly one doubling step capped
at 300 and continues the loop; and any successful (non-empty) backend
reply resets the stored backoff to 5. -/
theorem c10_rate_limit_backoff :
    (∀ history0, (initLoopState history0).backoff = 5)
    ∧ (∀ k, backoffAfterEvents k = min (5 * 2 ^ k) 300)
    ∧ (∀ (backend : Nat → BackendOutcome) (tools : List (String × MTool))
        (st : LoopState) (msg : String),
        backend (st.iteration + 1) = .exn msg → isRateLimitError msg = true →
        (loopStep backend tools st).state.backoff = min (st.backoff * 2) 300
        ∧ ∃ st2, loopStep backend tools st = .next st2)
    ∧ (∀ (backend : Nat → BackendOutcome) (tools : List (String × MTool))
        (st : LoopState) (c : String),
        backend (st.iteration + 1) = .ok c → c ≠ "" →
        (loopStep backend tools st).state.backoff = 5) := by
  refine ⟨fun _ => rfl, fun k => backoffAfterEvents_closed k, ?_, ?_⟩
  · intro backend tools st msg hb hrl
    simp only [loopStep, hb, hrl, if_true]
    exact ⟨rfl, _, rfl⟩
  · intro backend tools st c hb hc
    simp only [loopStep, hb, hc, if_false, ite_false]
    split
    · exact (processToolsAux_preserves c tools _).2
    · exact (processToolsAux_preserves c tools _).2

/-- Witness for c10_rate_limit_backoff at a concrete rate-limited call and
a concrete successful call. -/
theorem c10_rate_limit_backoff_witness :
    ((loopStep (fun _ => .exn "429") [] (initLoopState [])).state.backoff
        = min ((initLoopState []).backoff * 2) 300
      ∧ ∃ st2, loopStep (fun _ => .exn "429") [] (initLoopState []) = .next st2)
    ∧ (loopStep (fun _ => .ok "hello") [] (initLoopState [])).state.backoff = 5 :=
  ⟨c10_rate_limit_backoff.2.2.1 (fun _ => .exn "429") [] (initLoopState []) "429"
      rfl (by decide),
   c10_rate_limit_backoff.2.2.2 (fun _ => .ok "hello") [] (initLoopState []) "hello"
      rfl (by decide)⟩

/-! ## Loop termination with a phrase-free, tool-free backend stub -/

theorem check_completion_no_phrases {r : String}
    (hstrong : ∀ p ∈ strongIndicators, pyIn p (pyLower r) = false)
    (hweak : weakIndicators.countP (fun p => pyIn p (pyLower r)) < 2)
    (hlen : 100 ≤ strTrimLength r) (it : Nat) :
    check_task_completion r it false = decide (15 ≤ it) := by
  simp only [check_task_completion]
  have h1 : strongIndicators.any (fun p => pyIn p (pyLower r)) = false := by
    rw [List.any_eq_false]
    intro p hp
    rw [hstrong p hp]
    simp
  rw [h1]
  have h2 : ¬ (2 ≤ weakIndicators.countP (fun p => pyIn p (pyLower r))) := by omega
  have h3 : ¬ (strTrimLength r < 100) := by omega
  by_cases h15 : 15 ≤ it
  · simp [h2, h15]
  · have h20 : ¬ (20 ≤ it) := by omega
    simp [h2, h3, h15, h20]

theorem c7_step {backend : Nat → BackendOutcome} {tools : List (String × MTool)}
    {r : String}
    (hb : ∀ i, backend i = .ok r) (hr : r ≠ "")
    (hstrong : ∀ p ∈ strongIndicators, pyIn p (pyLower r) = false)
    (hweak : weakIndicators.countP (fun p => pyIn p (pyLower r)) < 2)
    (hlen : 100 ≤ strTrimLength r)
    (htools : ∀ nt ∈ tools, nt.2.enabled = true → nt.2.detect r = none)
    (st : LoopState) :
    loopStep backend tools st =
      (if 15 ≤ st.iteration + 1 then StepResult.halt else StepResult.next)
        { st with iteration := st.iteration + 1, consecutiveErrors := 0, backoff := 5,
                  history := st.history ++ [⟨"assistant", r⟩], lastResponse := r } := by
  have hpt : ∀ s2 : LoopState, processToolsAux r s2 tools = (s2, false) :=
    fun s2 => processToolsAux_no_detect tools s2 htools
  simp only [loopStep, hb (st.iteration + 1), hr, if_false, ite_false, hpt,
    check_completion_no_phrases hstrong hweak hlen]
  by_cases h15 : 15 ≤ st.iteration + 1
  · simp [h15]
  · simp [h15]

theorem c7_loop_aux {backend : Nat → BackendOutcome} {tools : List (String × MTool)}
    {r : String}
    (hb : ∀ i, backend i = .ok r) (hr : r ≠ "")
    (hstrong : ∀ p ∈ strongIndicators, pyIn p (pyLower r) = false)
    (hweak : weakIndicators.countP (fun p => pyIn p (pyLower r)) < 2)
    (hlen : 100 ≤ strTrimLength r)
    (htools : ∀ nt ∈ tools, nt.2.enabled = true → nt.2.detect r = none) :
    ∀ (fuel : Nat) (st : LoopState), st.iteration + fuel = max_iterations →
      st.iteration < 15 → (runLoopAux backend tools fuel st).iteration = 15 := by
  intro fuel
  induction fuel with
  | zero =>
    intro st hsum hlt
    exfalso
    rw [show max_iterations = 25 from rfl] at hsum
    omega
  | succ fuel ih =>
    intro st hsum hlt
    simp only [runLoopAux]
    rw [c7_step hb hr hstrong hweak hlen htools st]
    by_cases h15 : 15 ≤ st.iteration + 1
    · rw [if_pos h15]
      show st.iteration + 1 = 15
      omega
    · rw [if_neg h15]
      show (runLoopAux backend tools fuel
        { st with iteration := st.iteration + 1, consecutiveErrors := 0, backoff := 5,
                  history := st.history ++ [⟨"assistant", r⟩],
                  lastResponse := r }).iteration = 15
      refine ih _ ?_ ?_
      · show st.iteration + 1 + fuel = max_iterations
        omega
      · show st.iteration + 1 < 15
        omega

/-- C7 counterexample: a backend stub whose reply has no tool block and no
completion phrase does not run to the hard ceiling 25; the short reply
makes the short-response heuristic fire and the loop stops after 6
iterations. -/
theorem c7_counterexample :
    (run_streaming_conversation_loop (fun _ => .ok "ok then") [] []).iteration = 6
    ∧ strongIndicators.all (fun p => !(pyIn p (pyLower "ok then"))) = true
    ∧ weakIndicators.countP (fun p => pyIn p (pyLower "ok then")) = 0
    ∧ (6 : Nat) ≠ max_iterations := by
  decide

/-- C7 (amended): for a backend stub that always returns the same non-empty
reply with no completion phrase, at least 100 characters after stripping,
and in which no enabled tool detects a command, the loop stops at exactly
iteration 15 — the soft no-recent-tool-use heuristic (iteration at least 15
without a tool) fires before the hard ceiling 25 is reached; a reply
shorter than 100 characters stops even earlier, at iteration 6. -/
theorem c7_loop_soft_stop :
    ∀ (backend : Nat → BackendOutcome) (tools : List (String × MTool))
      (history0 : List ChatMsg) (r : String),
      (∀ i, backend i = .ok r) → r ≠ "" →
      (∀ p ∈ strongIndicators, pyIn p (pyLower r) = false) →
      weakIndicators.countP (fun p => pyIn p (pyLower r)) < 2 →
      100 ≤ strTrimLength r →
      (∀ nt ∈ tools, nt.2.enabled = true → nt.2.detect r = none) →
      (run_streaming_conversation_loop backend tools history0).iteration = 15 := by
  intro backend tools history0 r hb hr hstrong hweak hlen htools
  exact c7_loop_aux hb hr hstrong hweak hlen htools max_iterations
    (initLoopState history0) rfl (by show (0 : Nat) < 15; decide)

set_option maxRecDepth 4000 in
/-- Witness for c7_loop_soft_stop at a concrete 135-character phrase-free
reply and the empty tool set. -/
theorem c7_loop_soft_stop_witness :
    (run_streaming_conversation_loop (fun _ => .ok c7WitnessReply) [] []).iteration
      = 15 :=
  c7_loop_soft_stop (fun _ => .ok c7WitnessReply) [] [] c7WitnessReply
    (fun _ => rfl) (by decide) (by decide) (by decide) (by decide)
    (fun nt hnt => absurd hnt (List.not_mem_nil nt))

/-! ## One tool per iteration -/

theorem processToolsAux_first_match :
    ∀ (pre : List (String × MTool)) (name : String) (t : MTool)
      (rest : List (String × MTool)) (st : LoopState) (r cmd : String),
      (∀ q ∈ pre, q.2.enabled = true → q.2.detect r = none) →
      t.enabled = true → t.detect r = some cmd →
      processToolsAux r st (pre ++ (name, t) :: rest)
        = (runDetectedTool st name t cmd, true) := by
  intro pre
  induction pre with
  | nil =>
    intro name t rest st r cmd _ hen hdet
    simp only [List.nil_append, processToolsAux, hen, hdet, Bool.not_true,
      Bool.false_eq_true, if_false, ite_false]
  | cons q pre ih =>
    intro name t rest st r cmd hpre hen hdet
    obtain ⟨qname, qt⟩ := q
    simp only [List.cons_append, processToolsAux]
    cases hqe : qt.enabled with
    | false =>
      simp only [Bool.not_false, if_true]
      exact ih name t rest st r cmd
        (fun q2 hq2 => hpre q2 (List.mem_cons_of_mem _ hq2)) hen hdet
    | true =>
      have hqd : qt.detect r = none := hpre (qname, qt) (List.mem_cons_self _ _) hqe
      simp only [Bool.not_true, Bool.false_eq_true, if_false, ite_false, hqd]
      exact ih name t rest st r cmd
        (fun q2 hq2 => hpre q2 (List.mem_cons_of_mem _ hq2)) hen hdet

set_option maxRecDepth 8000 in
/-- C5 counterexample: a reply containing both a tool command and the
strong phrase "task completed" executes the tool and still stops the loop
at iteration 1 — the completion heuristics are consulted on a reply that
fired a tool, contrary to the claim that the loop proceeds to the next
iteration without consulting them. -/
theorem c5_counterexample :
    (run_streaming_conversation_loop c5CexBackend c5CexTools []).iteration = 1
    ∧ (run_streaming_conversation_loop c5CexBackend c5CexTools []).toolsUsed
        = [("testtool", "go")]
    ∧ (1 : Nat) < max_iterations := by
  decide

/-- C5 (amended): when detection finds a command, exactly the first
enabled tool in the stable tool-set order whose detect_request fires is
executed, its output or formatted error is appended as the next User
message (at most one tool per iteration), and the loop then still
evaluates the completion heuristics on that reply, with tool_used true —
which only disables the no-recent-tool-use rule — halting the iteration
sequence if they fire. -/
theorem c5_first_tool_amended :
    (∀ (pre : List (String × MTool)) (name : String) (t : MTool)
        (rest : List (String × MTool)) (st : LoopState) (r cmd : String),
        (∀ q ∈ pre, q.2.enabled = true → q.2.detect r = none) →
        t.enabled = true → t.detect r = some cmd →
        processToolsAux r st (pre ++ (name, t) :: rest)
          = (runDetectedTool st name t cmd, true))
    ∧ (∀ (backend : Nat → BackendOutcome) (tools : List (String × MTool))
        (st : LoopState) (r : String),
        backend (st.iteration + 1) = .ok r → r ≠ "" →
        loopStep backend tools st =
          (if check_task_completion r (st.iteration + 1)
              (processToolsAux r
                { st with iteration := st.iteration + 1, consecutiveErrors := 0,
                          backoff := 5,
                          history := st.history ++ [⟨"assistant", r⟩],
                          lastResponse := r } tools).2 = true
            then StepResult.halt (processToolsAux r
                { st with iteration := st.iteration + 1, consecutiveErrors := 0,
                          backoff := 5,
                          history := st.history ++ [⟨"assistant", r⟩],
                          lastResponse := r } tools).1
            else StepResult.next (processToolsAux r
                { st with iteration := st.iteration + 1, consecutiveErrors := 0,
                          backoff := 5,
                          history := st.history ++ [⟨"assistant", r⟩],
                          lastResponse := r } tools).1)) := by
  constructor
  · exact processToolsAux_first_match
  · intro backend tools st r hb hr
    simp only [loopStep, hb, hr, if_false, ite_false]

/-- Witness for c5_first_tool_amended: the stub tool fires as the first
match and reports tool usage. -/
theorem c5_first_tool_amended_witness :
    (processToolsAux "Run <cmd> now. task completed" (initLoopState [])
        (("testtool", c5Tool) :: [])).2 = true := by
  have h := c5_first_tool_amended.1 [] "testtool" c5Tool []
    (initLoopState []) "Run <cmd> now. task completed" "go"
    (fun q hq => absurd hq (List.not_mem_nil q)) rfl (by decide)
  rw [List.nil_append] at h
  rw [h]

end RedTeamAgent
